import Mathlib

set_option maxHeartbeats 1000000
set_option synthInstance.maxSize 1000
set_option synthInstance.maxHeartbeats 1000000
set_option maxRecDepth 4000

/- Shallow embedding of src/catalog.rs from the rust-s57 repository: an
ISO/IEC 8211 (S-57 catalog) decoder.  Byte slices are embedded as `List Nat`
(each element a byte value), strings as `List Char`, and `HashMap` as an
association list with overwrite-on-insert.  Fallible Rust code returns
`PResult`, whose `crash` constructor records an abnormal termination (a Rust
panic or abort, e.g. from out-of-bounds slicing or arithmetic underflow),
kept distinct from ordinary `Result::Err` values. -/

/-- Unit separator byte (0x1f) delimiting segments inside an ISO 8211 field. -/
def UNIT_SEPARATOR : Nat := 31

/-- Record separator byte (0x1e) terminating ISO 8211 fields and records. -/
def RECORD_SEPARATOR : Nat := 30

/-- Reserved subfield name used for the unnamed record-identifier subfield. -/
def DRID : List Char := ['D', 'R', 'I', 'D']

/-- Reserved top-level field tag holding the record identifier. -/
def TOPLVL : List Char := ['0', '0', '0', '1']

/-- I/O error kinds (std::io::ErrorKind) relevant to the embedded code. -/
inductive IOEKind where
  | UnexpectedEof
  | Other
deriving DecidableEq, Repr

/-- Error kinds of the crate's error module, as used from catalog.rs.
Payloads are kept only where some claim inspects them. -/
inductive ErrKind where
  | UtfError
  | ParseIntError (s : List Char)
  | IOError (k : IOEKind)
  | EOF
  | InvalidLeader
  | BadDirectoryData
  | BadFieldControl
  | BadDataStructureCode (s : List Char)
  | BadDataTypeCode (s : List Char)
  | BadTruncEscSeq (s : List Char)
  | EmptyFormatControls
  | InvalidHeader
  | CouldNotParseName
  | InvalidDDF (name : List Char)
  | InvalidDDFS
  | InvalidDDR
  | InvalidDR
  | CouldNotParseCatalog
  | BadParseData
deriving DecidableEq, Repr

/-- Outcome of running a piece of the embedded Rust code: a value, an error
value, or an abnormal termination (`crash`, modelling a Rust panic/abort). -/
inductive PResult (α : Type) where
  | ok (a : α)
  | err (e : ErrKind)
  | crash
deriving DecidableEq, Repr

/-- Model of failure's `context`: the outer error kind replaces the inner
one; only the outermost kind of the cause chain is observable via `kind()`. -/
def PResult.ctx {α : Type} (k : ErrKind) : PResult α → PResult α
  | .ok a => .ok a
  | .err _ => .err k
  | .crash => .crash

def PResult.bindP {α β : Type} : PResult α → (α → PResult β) → PResult β
  | .ok a, f => f a
  | .err e, _ => .err e
  | .crash, _ => .crash

instance : Monad PResult where
  pure := PResult.ok
  bind := PResult.bindP

/-- Indexing `l[i]` on a Rust slice: panics when out of bounds. -/
def idx (l : List Nat) (i : Nat) : PResult Nat :=
  match l.get? i with
  | some b => .ok b
  | none => .crash

/-- Slicing `l[s..e]` on a Rust slice: panics when the range is invalid. -/
def bslice (l : List Nat) (s e : Nat) : PResult (List Nat) :=
  if s ≤ e ∧ e ≤ l.length then .ok ((l.drop s).take (e - s)) else .crash

/-- Slicing `l[s..]` on a Rust slice: panics when `s` exceeds the length. -/
def bsliceFrom (l : List Nat) (s : Nat) : PResult (List Nat) :=
  if s ≤ l.length then .ok (l.drop s) else .crash

/-- Rust `slice::split` / `str::split` on a single separator: always yields at
least one (possibly empty) part, and keeps empty parts between separators. -/
def splitSep {α : Type} [DecidableEq α] (sep : α) : List α → List (List α)
  | [] => [[]]
  | a :: l =>
    if a = sep then [] :: splitSep sep l
    else
      match splitSep sep l with
      | h :: t => (a :: h) :: t
      | [] => [[a]]

/-- Position of the first occurrence of `x`, as `Iterator::position`. -/
def posOf (x : Nat) : List Nat → Option Nat
  | [] => none
  | b :: l =>
    if b = x then some 0
    else
      match posOf x l with
      | some i => some (i + 1)
      | none => none

/-- Fuel-driven core of `chunksOf`; fuel `l.length` suffices for width ≥ 1. -/
def chunksOfAux {α : Type} (w : Nat) : Nat → List α → List (List α)
  | 0, _ => []
  | _ + 1, [] => []
  | fuel + 1, a :: l => (a :: l).take w :: chunksOfAux w fuel ((a :: l).drop w)

/-- Rust `slice::chunks w`: full chunks of width `w`, the last possibly
shorter.  Callers guard width 0 (Rust panics there before chunking). -/
def chunksOf {α : Type} (w : Nat) (l : List α) : List (List α) :=
  chunksOfAux w l.length l

/-- One `Read::read` call with a buffer of size `k` against a reader modelled
as a list of chunks: returns at most `k` bytes from the current chunk. -/
def readOnce (chunks : List (List Nat)) (k : Nat) : List Nat × List (List Nat) :=
  match chunks with
  | [] => ([], [])
  | c :: rest =>
    let r := c.take k
    let c' := c.drop k
    (r, if c' = [] then rest else c' :: rest)

/-- Fuel-driven core of `readExact`; each successful read returns at least
one byte, so fuel `m` suffices. -/
def readExactAux : Nat → List (List Nat) → Nat → PResult (List Nat × List (List Nat))
  | _, chunks, 0 => .ok ([], chunks)
  | 0, _, _ + 1 => .err (.IOError .UnexpectedEof)
  | fuel + 1, chunks, m + 1 =>
    let p := readOnce chunks (m + 1)
    if p.1 = [] then .err (.IOError .UnexpectedEof)
    else
      match readExactAux fuel p.2 (m + 1 - p.1.length) with
      | .ok (bs, rest) => .ok (p.1 ++ bs, rest)
      | .err e => .err e
      | .crash => .crash

/-- Rust `Read::read_exact` with an `m`-byte buffer: reads until the buffer
is filled, failing with `UnexpectedEof` if the source ends first. -/
def readExact (chunks : List (List Nat)) (m : Nat) : PResult (List Nat × List (List Nat)) :=
  readExactAux m chunks m

/-- Whether a byte is a UTF-8 continuation byte (0x80..0xBF). -/
def isCont (b : Nat) : Bool := 128 ≤ b && b ≤ 191

/-- UTF-8 decoding as performed by `str::from_utf8`: rejects stray
continuation bytes, overlong encodings, surrogates and out-of-range values. -/
def utf8Decode : List Nat → Option (List Char)
  | [] => some []
  | b :: bs =>
    if b < 128 then
      match utf8Decode bs with
      | some cs => some (Char.ofNat b :: cs)
      | none => none
    else if b < 194 then none
    else if b < 224 then
      match bs with
      | c1 :: bs2 =>
        if isCont c1 then
          match utf8Decode bs2 with
          | some cs => some (Char.ofNat ((b - 192) * 64 + (c1 - 128)) :: cs)
          | none => none
        else none
      | [] => none
    else if b < 240 then
      match bs with
      | c1 :: c2 :: bs2 =>
        if isCont c1 && isCont c2 then
          let cp := (b - 224) * 4096 + (c1 - 128) * 64 + (c2 - 128)
          if cp < 2048 then none
          else if 55296 ≤ cp && cp ≤ 57343 then none
          else
            match utf8Decode bs2 with
            | some cs => some (Char.ofNat cp :: cs)
            | none => none
        else none
      | _ => none
    else if b < 245 then
      match bs with
      | c1 :: c2 :: c3 :: bs2 =>
        if isCont c1 && isCont c2 && isCont c3 then
          let cp := (b - 240) * 262144 + (c1 - 128) * 4096 + (c2 - 128) * 64 + (c3 - 128)
          if cp < 65536 then none
          else if cp > 1114111 then none
          else
            match utf8Decode bs2 with
            | some cs => some (Char.ofNat cp :: cs)
            | none => none
        else none
      | _ => none
    else none

/-- Numeric value of a list of ASCII decimal digit characters. -/
def digitsVal (l : List Char) : Nat := l.foldl (fun a c => a * 10 + (c.toNat - 48)) 0

/-- Rust `str::parse::<usize>`: optional leading plus sign, then a nonempty
run of decimal digits; values at or above 2^64 overflow and fail. -/
def parseUsize (s : List Char) : Option Nat :=
  let t :=
    match s with
    | '+' :: r => r
    | _ => s
  if t = [] then none
  else if t.all Char.isDigit then
    if digitsVal t < 2 ^ 64 then some (digitsVal t) else none
  else none

/-- The source's `parse_to_usize`: UTF-8 decode then integer parse, with the
UTF-8 and integer failures mapped to their error kinds. -/
def parse_to_usize (bytes : List Nat) : PResult Nat :=
  match utf8Decode bytes with
  | none => .err .UtfError
  | some s =>
    match parseUsize s with
    | none => .err (.ParseIntError s)
    | some v => .ok v

/-- The source's `parse_to_string`: UTF-8 decode to an owned string. -/
def parse_to_string (bytes : List Nat) : PResult (List Char) :=
  match utf8Decode bytes with
  | none => .err .UtfError
  | some s => .ok s

/-- The fixed record header (struct Leader in catalog.rs). -/
structure Leader where
  rl : Nat
  il : Char
  li : Char
  cei : Char
  vn : Char
  ai : Char
  fcl : Char × Char
  ba : Nat
  csi : Char × Char × Char
  flf : Nat
  fpf : Nat
  rsv : Char
  ftf : Nat
deriving DecidableEq, Repr

/-- One field's location descriptor (struct DirectoryEntry in catalog.rs). -/
structure DirectoryEntry where
  id : List Char
  length : Nat
  offset : Nat
deriving DecidableEq, Repr

/-- Data structure code enum of catalog.rs. -/
inductive DataStructureCode where
  | SDI
  | LS
  | MDS
deriving DecidableEq, Repr

/-- FromStr for DataStructureCode: "0" / "1" / "2". -/
def dscFromStr (s : List Char) : PResult DataStructureCode :=
  if s = ['0'] then .ok .SDI
  else if s = ['1'] then .ok .LS
  else if s = ['2'] then .ok .MDS
  else .err (.BadDataStructureCode s)

/-- Data type code enum of catalog.rs. -/
inductive DataTypeCode where
  | CS
  | IP
  | EP
  | BF
  | MDT
deriving DecidableEq, Repr

/-- FromStr for DataTypeCode: "0" / "1" / "2" / "5" / "6". -/
def dtcFromStr (s : List Char) : PResult DataTypeCode :=
  if s = ['0'] then .ok .CS
  else if s = ['1'] then .ok .IP
  else if s = ['2'] then .ok .EP
  else if s = ['5'] then .ok .BF
  else if s = ['6'] then .ok .MDT
  else .err (.BadDataTypeCode s)

/-- Truncated escape sequence enum of catalog.rs. -/
inductive TruncEscSeq where
  | LE0
  | LE1
  | LE2
deriving DecidableEq, Repr

/-- FromStr for TruncEscSeq: three-character escape codes. -/
def tesFromStr (s : List Char) : PResult TruncEscSeq :=
  if s = [' ', ' ', ' '] then .ok .LE0
  else if s = ['-', 'A', ' '] then .ok .LE1
  else if s = ['%', '/', 'A'] then .ok .LE2
  else .err (.BadTruncEscSeq s)

/-- Per-field structural flags (struct FieldControls in catalog.rs). -/
structure FieldControls where
  dsc : DataStructureCode
  dtc : DataTypeCode
  aux : List Char
  prt : List Char
  tes : TruncEscSeq
deriving DecidableEq, Repr

/-- Modelled from the spec: the scalar type enum of the missing
src/data_parser.rs (typed values are strings, integers or reals). -/
inductive ParseType where
  | String
  | Integer
  | Float
deriving DecidableEq, Repr

/-- Modelled from the spec: format specifiers of the missing
src/data_parser.rs, a closed variant of fixed-width and variable-width
typed specifiers. -/
inductive ParseData where
  | Fixed (t : ParseType) (w : Nat)
  | Variable (t : ParseType)
deriving DecidableEq, Repr

/-- One field's decoding recipe (struct DDFEntry in catalog.rs). -/
structure DDFEntry where
  fic : FieldControls
  name : List Char
  foc : List (List Char × ParseData)
deriving DecidableEq, Repr

/-- Modelled from the spec: typed decoded values of the missing
src/data_parser.rs.  The integer variant carries an optional value, as
forced by Record::id in catalog.rs; real values are kept as their raw
character text, since floating point is outside the embedding. -/
inductive Data where
  | String (s : List Char)
  | Integer (i : Option Int)
  | Real (s : List Char)
deriving DecidableEq, Repr

/-- Lookup in the association-list model of HashMap (first match wins; the
construction keeps at most one entry per key). -/
def hmGet {V : Type} : List (List Char × V) → List Char → Option V
  | [], _ => none
  | p :: m, k => if p.1 = k then some p.2 else hmGet m k

/-- Insert in the association-list model of HashMap: removes any existing
entry with the key, then appends, so a later insert overwrites an earlier. -/
def hmInsert {V : Type} : List (List Char × V) → List Char → V → List (List Char × V)
  | [], k, v => [(k, v)]
  | p :: m, k, v => if p.1 = k then hmInsert m k v else p :: hmInsert m k v

/-- The source's parse_leader: fixed-offset ASCII subfields of the 19 bytes
after the length/record prefix, together with the already-read total length. -/
def parse_leader (byte : List Nat) (len : Nat) : PResult Leader := do
  let rl := len
  let il ← idx byte 0
  let li ← idx byte 1
  let cei ← idx byte 2
  let vn ← idx byte 3
  let ai ← idx byte 4
  let f5 ← idx byte 5
  let f6 ← idx byte 6
  let baB ← bslice byte 7 12
  let ba ← PResult.ctx .InvalidLeader (parse_to_usize baB)
  let c12 ← idx byte 12
  let c13 ← idx byte 13
  let c14 ← idx byte 14
  let flfB ← bslice byte 15 16
  let flf ← PResult.ctx .InvalidLeader (parse_to_usize flfB)
  let fpfB ← bslice byte 16 17
  let fpf ← PResult.ctx .InvalidLeader (parse_to_usize fpfB)
  let rsv ← idx byte 17
  let ftfB ← bslice byte 18 19
  let ftf ← PResult.ctx .InvalidLeader (parse_to_usize ftfB)
  pure
    { rl := rl, il := Char.ofNat il, li := Char.ofNat li, cei := Char.ofNat cei
      vn := Char.ofNat vn, ai := Char.ofNat ai, fcl := (Char.ofNat f5, Char.ofNat f6)
      ba := ba % 2 ^ 32, csi := (Char.ofNat c12, Char.ofNat c13, Char.ofNat c14)
      flf := flf, fpf := fpf, rsv := Char.ofNat rsv, ftf := ftf }

/-- Chunk width used by parse_directory: tag + length + position widths. -/
def leaderWidth (leader : Leader) : Nat := leader.ftf + leader.flf + leader.fpf

/-- Body of the parse_directory loop on one full-width chunk: tag bytes,
then length bytes, then the remaining position bytes. -/
def dirEntryOfChunk (leader : Leader) (d : List Nat) : PResult DirectoryEntry :=
  match bslice d 0 leader.ftf with
  | .ok idB =>
    match parse_to_string idB with
    | .ok id =>
      match bslice d leader.ftf (leader.ftf + leader.flf) with
      | .ok lenB =>
        match parse_to_usize lenB with
        | .ok length =>
          match bsliceFrom d (leader.ftf + leader.flf) with
          | .ok offB =>
            match parse_to_usize offB with
            | .ok offset => .ok { id := id, length := length, offset := offset }
            | .err e => .err e
            | .crash => .crash
          | .err e => .err e
          | .crash => .crash
        | .err e => .err e
        | .crash => .crash
      | .err e => .err e
      | .crash => .crash
    | .err e => .err e
    | .crash => .crash
  | .err e => .err e
  | .crash => .crash

/-- The for-loop of parse_directory over the chunks, in input order; a chunk
of the wrong width is the BadDirectoryData structural error. -/
def parse_dir_loop (leader : Leader) (w : Nat) : List (List Nat) → PResult (List DirectoryEntry)
  | [] => .ok []
  | d :: rest =>
    if d.length ≠ w then .err .BadDirectoryData
    else
      match dirEntryOfChunk leader d with
      | .ok e =>
        match parse_dir_loop leader w rest with
        | .ok es => .ok (e :: es)
        | .err e2 => .err e2
        | .crash => .crash
      | .err e2 => .err e2
      | .crash => .crash

/-- The source's parse_directory: chunk the directory region at the leader's
entry-map width and decode each chunk.  `slice::chunks` panics on width 0. -/
def parse_directory (byte : List Nat) (leader : Leader) : PResult (List DirectoryEntry) :=
  let chunksize := leaderWidth leader
  if chunksize = 0 then .crash
  else parse_dir_loop leader chunksize (chunksOf chunksize byte)

/-- The source's parse_field_controls over the 9 field-control bytes. -/
def parse_field_controls (byte : List Nat) : PResult FieldControls := do
  let b01 ← bslice byte 0 1
  let s01 ← parse_to_string b01
  let dsc ← PResult.ctx .BadFieldControl (dscFromStr s01)
  let b12 ← bslice byte 1 2
  let s12 ← parse_to_string b12
  let dtc ← PResult.ctx .BadFieldControl (dtcFromStr s12)
  let auxB ← bslice byte 2 4
  let aux ← parse_to_string auxB
  let prtB ← bslice byte 4 6
  let prt ← parse_to_string prtB
  let tesB ← bsliceFrom byte 6
  let tesS ← parse_to_string tesB
  let tes ← PResult.ctx .BadFieldControl (tesFromStr tesS)
  pure { dsc := dsc, dtc := dtc, aux := aux, prt := prt, tes := tes }

/-- The source's parse_array_descriptors: an empty segment denotes the
unnamed record identifier and is synthesized under the reserved DRID name;
otherwise the UTF-8 text is split on the bang separator, in input order. -/
def parse_array_descriptors (byte : List Nat) : PResult (List (List Char)) :=
  if byte = [] then .ok [DRID]
  else
    match parse_to_string byte with
    | .ok s => .ok (splitSep '!' s)
    | .err e => .err e
    | .crash => .crash

/-- Modelled from the spec: ParseData::from_str of the missing
src/data_parser.rs.  Each format-control element is an optional leading
repeat count (default 1), then a type letter (A string, I integer, R real),
then an optional parenthesized width; the pair (count, spec) is returned. -/
def pdFromStr (s : List Char) : PResult (Nat × ParseData) :=
  let digits := s.takeWhile Char.isDigit
  let rest := s.dropWhile Char.isDigit
  let count := if digits = [] then 1 else digitsVal digits
  match rest with
  | [] => .err .BadParseData
  | c :: rest2 =>
    let t? : Option ParseType :=
      if c = 'A' then some .String
      else if c = 'I' then some .Integer
      else if c = 'R' then some .Float
      else none
    match t? with
    | none => .err .BadParseData
    | some t =>
      match rest2 with
      | [] => .ok (count, .Variable t)
      | '(' :: ws =>
        let wd := ws.takeWhile Char.isDigit
        let tail := ws.dropWhile Char.isDigit
        if wd ≠ [] ∧ tail = [')'] then .ok (count, .Fixed t (digitsVal wd))
        else .err .BadParseData
      | _ => .err .BadParseData

/-- Effectful map over a list, stopping at the first error, as a collect
of an iterator of results into a single result of a vector. -/
def mapPR {α β : Type} (f : α → PResult β) : List α → PResult (List β)
  | [] => .ok []
  | a :: l =>
    match f a with
    | .ok b =>
      match mapPR f l with
      | .ok bs => .ok (b :: bs)
      | .err e => .err e
      | .crash => .crash
    | .err e => .err e
    | .crash => .crash

/-- The source's parse_format_controls: a segment of fewer than 2 bytes is
EmptyFormatControls; otherwise the first and last byte are stripped, the
text is split on commas, each element decoded to (count, spec), and each
spec repeated count times, preserving element order. -/
def parse_format_controls (byte : List Nat) : PResult (List ParseData) :=
  if byte.length < 2 then .err .EmptyFormatControls
  else
    match parse_to_string ((byte.drop 1).take (byte.length - 2)) with
    | .ok s =>
      match mapPR pdFromStr (splitSep ',' s) with
      | .ok pds => .ok ((pds.map (fun pd => List.replicate pd.1 pd.2)).flatten)
      | .err e => .err e
      | .crash => .crash
    | .err e => .err e
    | .crash => .crash

/-- The source's parse_ddf: split the field bytes on the unit separator;
the first segment's first 9 bytes are field controls (split_at(9) panics on a
shorter segment) and the rest the name; segment 1 is the array descriptor,
segment 2 the format controls; the tag and spec lists are zipped when their
lengths agree and the whole field is InvalidDDF(name) otherwise. -/
def parse_ddf (byte : List Nat) : PResult DDFEntry :=
  let parts := splitSep UNIT_SEPARATOR byte
  match parts.get? 0 with
  | none => .err .InvalidHeader
  | some p0 =>
    if p0.length < 9 then .crash
    else
      let fic_bytes := p0.take 9
      let name_bytes := p0.drop 9
      match PResult.ctx .CouldNotParseName (parse_to_string name_bytes) with
      | .err e => .err e
      | .crash => .crash
      | .ok name =>
        match PResult.ctx (.InvalidDDF name) (parse_field_controls fic_bytes) with
        | .err e => .err e
        | .crash => .crash
        | .ok fic =>
          match parts.get? 1 with
          | none => .err (.InvalidDDF name)
          | some p1 =>
            match PResult.ctx (.InvalidDDF name) (parse_array_descriptors p1) with
            | .err e => .err e
            | .crash => .crash
            | .ok array_desc =>
              match parts.get? 2 with
              | none => .err (.InvalidDDF name)
              | some p2 =>
                match PResult.ctx (.InvalidDDF name) (parse_format_controls p2) with
                | .err e => .err e
                | .crash => .crash
                | .ok data_parsers =>
                  if array_desc.length = data_parsers.length then
                    .ok { fic := fic, name := name, foc := array_desc.zip data_parsers }
                  else .err (.InvalidDDF name)

/-- One step of parse_ddfs: slice the field bytes of one directory entry
(the trailing record separator excluded; a zero length underflows and the
slice panics) and decode them, wrapping failures as InvalidDDFS. -/
def ddfAt (byte : List Nat) (d : DirectoryEntry) : PResult DDFEntry :=
  if d.length = 0 then .crash
  else
    match bslice byte d.offset (d.offset + d.length - 1) with
    | .ok seg => PResult.ctx .InvalidDDFS (parse_ddf seg)
    | .err e => .err e
    | .crash => .crash

/-- The collect loop of parse_ddfs: decode each remaining directory entry in
order and insert under its tag, a later tag overwriting an earlier one. -/
def parse_ddfs_go (byte : List Nat) :
    List DirectoryEntry → List (List Char × DDFEntry) → PResult (List (List Char × DDFEntry))
  | [], m => .ok m
  | d :: rest, m =>
    match ddfAt byte d with
    | .ok e => parse_ddfs_go byte rest (hmInsert m d.id e)
    | .err e2 => .err e2
    | .crash => .crash

/-- The source's parse_ddfs: the first directory entry (the file control
field) is skipped, the remaining entries are decoded into the schema map. -/
def parse_ddfs (byte : List Nat) (dirs : List DirectoryEntry) :
    PResult (List (List Char × DDFEntry)) :=
  parse_ddfs_go byte (dirs.drop 1) []

/-- A byte cursor over the field area (std::io::Cursor). -/
structure Cursor where
  data : List Nat
  pos : Nat
deriving DecidableEq, Repr

/-- Modelled from the spec: the scalar decode of one value of the missing
src/data_parser.rs.  A fixed-width spec consumes exactly its width in bytes;
a variable-width spec consumes up to and including the next unit separator;
the consumed bytes are decoded at the spec's scalar type. -/
def decodeScalar (t : ParseType) (bs : List Nat) : PResult Data :=
  match t with
  | .String =>
    match parse_to_string bs with
    | .ok s => .ok (.String s)
    | .err e => .err e
    | .crash => .crash
  | .Integer =>
    match parse_to_string bs with
    | .ok s =>
      if s = [] ∨ s.all (fun c => c = ' ') then .ok (.Integer none)
      else
        match parseUsize s with
        | some v => .ok (.Integer (some (Int.ofNat v)))
        | none => .err (.ParseIntError s)
    | .err e => .err e
    | .crash => .crash
  | .Float =>
    match parse_to_string bs with
    | .ok s => .ok (.Real s)
    | .err e => .err e
    | .crash => .crash

/-- Modelled from the spec: ParseData::parse of the missing
src/data_parser.rs, consuming bytes from the cursor and advancing it. -/
def pdParse (pd : ParseData) (cur : Cursor) : PResult (Data × Cursor) :=
  match pd with
  | .Fixed t w =>
    if cur.pos + w ≤ cur.data.length then
      match decodeScalar t ((cur.data.drop cur.pos).take w) with
      | .ok v => .ok (v, { data := cur.data, pos := cur.pos + w })
      | .err e => .err e
      | .crash => .crash
    else .err (.IOError .UnexpectedEof)
  | .Variable t =>
    match posOf UNIT_SEPARATOR (cur.data.drop cur.pos) with
    | none => .err (.IOError .UnexpectedEof)
    | some i =>
      match decodeScalar t ((cur.data.drop cur.pos).take i) with
      | .ok v => .ok (v, { data := cur.data, pos := cur.pos + i + 1 })
      | .err e => .err e
      | .crash => .crash

/-- Decoded subfield values of one field (type Field in catalog.rs; named FieldData here to avoid clashing with the algebra class). -/
abbrev FieldData : Type := List (List Char × Data)

/-- One decoded data record (struct Record in catalog.rs). -/
abbrev Record : Type := List (List Char × FieldData)

/-- The collect loop over one field's (subfield tag, spec) schema list:
decode each subfield at the cursor in schema order, inserting under its tag. -/
def decodeFieldGo : List (List Char × ParseData) → Cursor → FieldData → PResult (FieldData × Cursor)
  | [], cur, f => .ok (f, cur)
  | (nm, pd) :: rest, cur, f =>
    match pdParse pd cur with
    | .ok (v, cur2) => decodeFieldGo rest cur2 (hmInsert f nm v)
    | .err e => .err e
    | .crash => .crash

/-- Decoding of one field's subfields from the cursor (the body of the
parse_dr loop before the separator skip). -/
def decodeField (foc : List (List Char × ParseData)) (cur : Cursor) : PResult (FieldData × Cursor) :=
  decodeFieldGo foc cur []

/-- One directory entry's decoding inside parse_dr: schema lookup (a missing
tag is InvalidDR), subfield decoding (failures wrapped as InvalidDR). -/
def fieldOfDir (schema : List (List Char × DDFEntry)) (d : DirectoryEntry) (cur : Cursor) :
    PResult (FieldData × Cursor) :=
  match hmGet schema d.id with
  | none => .err .InvalidDR
  | some ddf =>
    match decodeField ddf.foc cur with
    | .ok (f, c) => .ok (f, c)
    | .err _ => .err .InvalidDR
    | .crash => .crash

/-- The parse_dr loop over the record's directory entries, in order: decode
each field, skip the trailing record separator byte, and insert the field
under the entry's tag, a later tag overwriting an earlier one. -/
def drGo (schema : List (List Char × DDFEntry)) :
    List DirectoryEntry → Cursor → Record → PResult (Record × Cursor)
  | [], cur, rec => .ok (rec, cur)
  | d :: rest, cur, rec =>
    match fieldOfDir schema d cur with
    | .ok (f, c) => drGo schema rest { data := c.data, pos := c.pos + 1 } (hmInsert rec d.id f)
    | .err e => .err e
    | .crash => .crash

/-- The source's parse_dir_and_field_area: read the 5-byte ASCII length
prefix (0 bytes read is EOF, any other count than 5 an unexpected-end I/O
error), read the remaining length-5 bytes (the subtraction underflows and
the allocation aborts for a length below 5), decode the leader from the
first 19 bytes, locate the first record separator, and split the directory
area from the field area. -/
def parse_dir_and_field_area (chunks : List (List Nat)) :
    PResult ((List DirectoryEntry × List Nat) × List (List Nat)) :=
  let lenRead := readOnce chunks 5
  if lenRead.1.length = 0 then .err .EOF
  else if lenRead.1.length = 5 then
    match parse_to_usize lenRead.1 with
    | .err e => .err e
    | .crash => .crash
    | .ok length =>
      if length < 5 then .crash
      else
        match readExact lenRead.2 (length - 5) with
        | .err e => .err e
        | .crash => .crash
        | .ok (data, rest2) =>
          match bslice data 0 19 with
          | .err e => .err e
          | .crash => .crash
          | .ok hd =>
            match parse_leader hd length with
            | .err e => .err e
            | .crash => .crash
            | .ok leader =>
              match posOf RECORD_SEPARATOR data with
              | none => .err .BadDirectoryData
              | some i =>
                match bslice data 19 i with
                | .err e => .err e
                | .crash => .crash
                | .ok dirB =>
                  match parse_directory dirB leader with
                  | .err e => .err e
                  | .crash => .crash
                  | .ok dirs =>
                    match bsliceFrom data (i + 1) with
                    | .err e => .err e
                    | .crash => .crash
                    | .ok fa => .ok ((dirs, fa), rest2)
  else .err (.IOError .UnexpectedEof)

/-- The stream state of Catalog: the DDR schema plus the byte source. -/
structure CatalogSt where
  schema : List (List Char × DDFEntry)
  chunks : List (List Nat)

/-- The source's Catalog::parse_dr: frame one record (EOF becomes a clean
`none`), then decode its directory entries against the schema. -/
def parse_dr (st : CatalogSt) : PResult (Option Record) :=
  match parse_dir_and_field_area st.chunks with
  | .err e => if e = .EOF then .ok none else .err e
  | .crash => .crash
  | .ok ((dirs, fdata), _) =>
    match drGo st.schema dirs { data := fdata, pos := 0 } [] with
    | .ok (rec, _) => .ok (some rec)
    | .err e => .err e
    | .crash => .crash

/-- The Iterator::next of Catalog: a decoded record is an Ok item, a clean
EOF ends the iteration, and any other failure is an Err item. -/
def catalogNext (st : CatalogSt) : PResult (Option (Except ErrKind Record)) :=
  match parse_dr st with
  | .ok (some r) => .ok (some (.ok r))
  | .ok none => .ok none
  | .err e => .ok (some (.error e))
  | .crash => .crash

/-- The source's Record::id: look up the reserved top-level tag, then the
synthesized record-identifier subfield, then its optional integer value. -/
def recordId (r : Record) : Option Int :=
  match hmGet r TOPLVL with
  | none => none
  | some f =>
    match hmGet f DRID with
    | none => none
    | some (Data.Integer i) => i
    | some _ => none

/-- The 19 leader bytes of the repository's own leader test. -/
def leaderBytes : List Nat := "3LE1 0900058 ! 3404".toList.map Char.toNat

/-- The same leader input truncated to 18 bytes. -/
def leaderBytes18 : List Nat := "3LE1 0900058 ! 340".toList.map Char.toNat

/-- The leader value expected by the repository's own leader test. -/
def testLeader : Leader :=
  { rl := 241, il := '3', li := 'L', cei := 'E', vn := '1', ai := ' ', fcl := ('0', '9')
    ba := 58, csi := (' ', '!', ' '), flf := 3, fpf := 4, rsv := '0', ftf := 4 }

/-- The directory bytes of the repository's own directory test. -/
def dirBytes : List Nat := "0000019000000010440019CATD1200063".toList.map Char.toNat

/-- The directory entries expected by the repository's own directory test. -/
def testDirectory : List DirectoryEntry :=
  [ { id := ['0', '0', '0', '0'], length := 19, offset := 0 },
    { id := ['0', '0', '0', '1'], length := 44, offset := 19 },
    { id := ['C', 'A', 'T', 'D'], length := 120, offset := 63 } ]

/-- A leader whose entry-map widths are all 1 (chunk width 3). -/
def cxDirLeader : Leader :=
  { rl := 0, il := ' ', li := ' ', cei := ' ', vn := ' ', ai := ' ', fcl := (' ', ' ')
    ba := 0, csi := (' ', ' ', ' '), flf := 1, fpf := 1, rsv := ' ', ftf := 1 }

/-- A 4-byte directory region (not a multiple of 3) whose first full chunk
has a non-numeric length subfield. -/
def cxDirBytes : List Nat := "Axy?".toList.map Char.toNat

/-- A well-formed DDF payload: field controls, name, array descriptor with
one tag, format controls with one spec. -/
def ddfPayload : List Nat :=
  ("1600;&-A NAME".toList.map Char.toNat) ++ [31]
    ++ ("RCNM".toList.map Char.toNat) ++ [31] ++ ("(I(10))".toList.map Char.toNat)

/-- The duplicated directory tag of the duplicate-tag scenarios. -/
def tagAAAA : List Char := ['A', 'A', 'A', 'A']

/-- A DDR field area holding one DDF payload plus its record separator. -/
def cbytes : List Nat := ddfPayload ++ [30]

/-- The skipped first (file control) directory entry of the scenario. -/
def cdir0 : DirectoryEntry := { id := ['0', '0', '0', '0'], length := 0, offset := 0 }

/-- First directory entry carrying the duplicated tag. -/
def cdir1 : DirectoryEntry := { id := tagAAAA, length := 27, offset := 0 }

/-- Second directory entry carrying the duplicated tag. -/
def cdir2 : DirectoryEntry := { id := tagAAAA, length := 27, offset := 0 }

/-- A DDR directory whose two entries after the first share one tag. -/
def cdirs : List DirectoryEntry := [cdir0, cdir1, cdir2]

/-- Number of entries of a successfully built schema map. -/
def hmSizeOf : PResult (List (List Char × DDFEntry)) → Option Nat
  | .ok m => some m.length
  | .err _ => none
  | .crash => none

/-- The schema map built from the duplicate-tag DDR scenario. -/
def c6Map : List (List Char × DDFEntry) :=
  match parse_ddfs cbytes cdirs with
  | .ok m => m
  | .err _ => []
  | .crash => []

/-- A schema entry with a single fixed-width integer subfield. -/
def tEntry : DDFEntry :=
  { fic := { dsc := .LS, dtc := .MDT, aux := ['0', '0'], prt := [';', '&'], tes := .LE1 }
    name := ['N', 'A', 'M', 'E']
    foc := [(DRID, ParseData.Fixed ParseType.Integer 3)] }

/-- A one-entry schema keyed by the duplicated tag. -/
def tSchema : List (List Char × DDFEntry) := [(tagAAAA, tEntry)]

/-- A field area holding two 3-digit integer fields, each terminated by a
record separator. -/
def tFdata : List Nat :=
  ("001".toList.map Char.toNat) ++ [30] ++ ("002".toList.map Char.toNat) ++ [30]

/-- The record decoded from the duplicate-tag data record scenario. -/
def c10Rec : Record :=
  match drGo tSchema [cdir1, cdir2] { data := tFdata, pos := 0 } [] with
  | .ok (r, _) => r
  | .err _ => []
  | .crash => []

/-- The cursor left by the duplicate-tag data record scenario. -/
def c10Cur : Cursor :=
  match drGo tSchema [cdir1, cdir2] { data := tFdata, pos := 0 } [] with
  | .ok (_, c) => c
  | .err _ => { data := [], pos := 0 }
  | .crash => { data := [], pos := 0 }

/-- The array descriptor input of the repository's own descriptor test. -/
def arrDescBytes : List Nat :=
  "RCNM!RCID!FILE!LFIL!VOLM!IMPL!SLAT!WLON!NLAT!ELON!CRCS!COMT".toList.map Char.toNat

/-- The format controls input of the repository's own format test. -/
def fmtBytes : List Nat := "(A(2),2I(10),2R)".toList.map Char.toNat

theorem hmGet_insert_self {V : Type} (m : List (List Char × V)) (k : List Char) (v : V) :
    hmGet (hmInsert m k v) k = some v := by
  induction m with
  | nil => simp [hmInsert, hmGet]
  | cons p m ih =>
    by_cases h : p.1 = k
    · simp [hmInsert, h, ih]
    · simp [hmInsert, hmGet, h, ih]

theorem hmGet_insert_ne {V : Type} (m : List (List Char × V)) (k t : List Char) (v : V)
    (h : t ≠ k) : hmGet (hmInsert m k v) t = hmGet m t := by
  induction m with
  | nil =>
    have hkt : ¬(k = t) := fun hk => h (Eq.symm hk)
    simp [hmInsert, hmGet, hkt]
  | cons p m ih =>
    by_cases hp : p.1 = k
    · have hpt : ¬(p.1 = t) := by rw [hp]; exact fun hk => h (Eq.symm hk)
      simp only [hmInsert, if_pos hp]
      rw [ih]
      simp [hmGet, hpt]
    · simp only [hmInsert, if_neg hp]
      simp only [hmGet]
      rw [ih]

theorem parse_ddfs_go_append (byte : List Nat) (l₁ l₂ : List DirectoryEntry)
    (m : List (List Char × DDFEntry)) :
    parse_ddfs_go byte (l₁ ++ l₂) m =
      match parse_ddfs_go byte l₁ m with
      | .ok m' => parse_ddfs_go byte l₂ m'
      | .err e => .err e
      | .crash => .crash := by
  induction l₁ generalizing m with
  | nil => simp [parse_ddfs_go]
  | cons d l₁ ih =>
    simp only [List.cons_append, parse_ddfs_go]
    cases ddfAt byte d with
    | ok e => exact ih (hmInsert m d.id e)
    | err e => rfl
    | crash => rfl

theorem parse_ddfs_go_not_mem (byte : List Nat) (l : List DirectoryEntry)
    (m m' : List (List Char × DDFEntry)) (t : List Char)
    (h : parse_ddfs_go byte l m = .ok m') (ht : t ∉ l.map DirectoryEntry.id) :
    hmGet m' t = hmGet m t := by
  induction l generalizing m with
  | nil => simp [parse_ddfs_go] at h; rw [h]
  | cons d l ih =>
    simp only [List.map_cons, List.mem_cons] at ht
    push_neg at ht
    simp only [parse_ddfs_go] at h
    cases hd : ddfAt byte d with
    | ok e =>
      rw [hd] at h
      rw [ih (hmInsert m d.id e) h ht.2, hmGet_insert_ne m d.id t e ht.1]
    | err e => rw [hd] at h; cases h
    | crash => rw [hd] at h; cases h

theorem drGo_append (schema : List (List Char × DDFEntry)) (l₁ l₂ : List DirectoryEntry)
    (cur : Cursor) (rec : Record) :
    drGo schema (l₁ ++ l₂) cur rec =
      match drGo schema l₁ cur rec with
      | .ok (r, c) => drGo schema l₂ c r
      | .err e => .err e
      | .crash => .crash := by
  induction l₁ generalizing cur rec with
  | nil => simp [drGo]
  | cons d l₁ ih =>
    simp only [List.cons_append, drGo]
    cases fieldOfDir schema d cur with
    | ok fc => exact ih { data := fc.2.data, pos := fc.2.pos + 1 } (hmInsert rec d.id fc.1)
    | err e => rfl
    | crash => rfl

theorem drGo_not_mem (schema : List (List Char × DDFEntry)) (l : List DirectoryEntry)
    (cur : Cursor) (rec m : Record) (c : Cursor) (t : List Char)
    (h : drGo schema l cur rec = .ok (m, c)) (ht : t ∉ l.map DirectoryEntry.id) :
    hmGet m t = hmGet rec t := by
  induction l generalizing cur rec with
  | nil => simp [drGo] at h; rw [h.1]
  | cons d l ih =>
    simp only [List.map_cons, List.mem_cons] at ht
    push_neg at ht
    simp only [drGo] at h
    cases hd : fieldOfDir schema d cur with
    | ok fc =>
      rw [hd] at h
      rw [ih { data := fc.2.data, pos := fc.2.pos + 1 } (hmInsert rec d.id fc.1) h ht.2,
        hmGet_insert_ne rec d.id t fc.1 ht.1]
    | err e => rw [hd] at h; cases h
    | crash => rw [hd] at h; cases h

/-- C6 counterexample: a DDR directory whose two entries after the first
share one tag produces a schema map with a single entry, not one entry per
directory entry after the first as the claim states. -/
theorem c6_schema_size_counterexample :
    hmSizeOf (parse_ddfs cbytes cdirs) = some 1 ∧ (cdirs.drop 1).length = 2 := by
  decide

/-- C6 (amended): the first directory entry of the DDR is never decoded into
the schema: a successfully built schema maps a tag to the DDF decoded from
the last directory entry after the first carrying that tag, and maps a tag
to nothing when no entry after the first carries it — so the first entry's
tag is absent unless a later entry shares it, and duplicated tags collapse
to one entry each. -/
theorem c6_schema_keys (bytes : List Nat) (dirs : List DirectoryEntry)
    (m : List (List Char × DDFEntry)) (t : List Char)
    (hok : parse_ddfs bytes dirs = .ok m) :
    (∀ l₁ d l₂, dirs.drop 1 = l₁ ++ d :: l₂ → d.id = t →
        t ∉ l₂.map DirectoryEntry.id → ∃ e, ddfAt bytes d = .ok e ∧ hmGet m t = some e)
    ∧ (t ∉ (dirs.drop 1).map DirectoryEntry.id → hmGet m t = none) := by
  unfold parse_ddfs at hok
  constructor
  · intro l₁ d l₂ hdec hid hnm
    subst hid
    rw [hdec, parse_ddfs_go_append] at hok
    cases h1 : parse_ddfs_go bytes l₁ [] with
    | ok m₁ =>
      rw [h1] at hok
      simp only [parse_ddfs_go] at hok
      cases hd : ddfAt bytes d with
      | ok e =>
        rw [hd] at hok
        refine ⟨e, rfl, ?_⟩
        rw [parse_ddfs_go_not_mem bytes l₂ (hmInsert m₁ d.id e) m d.id hok hnm,
          hmGet_insert_self]
      | err e => rw [hd] at hok; cases hok
      | crash => rw [hd] at hok; cases hok
    | err e => rw [h1] at hok; cases hok
    | crash => rw [h1] at hok; cases hok
  · intro hnm
    rw [parse_ddfs_go_not_mem bytes (dirs.drop 1) [] m t hok hnm]
    rfl

/-- C6 witness: the amended schema statement applied to the concrete
duplicate-tag DDR scenario. -/
theorem c6_schema_keys_witness :
    parse_ddfs cbytes cdirs = .ok c6Map ∧
    ((∀ l₁ d l₂, cdirs.drop 1 = l₁ ++ d :: l₂ → d.id = tagAAAA →
        tagAAAA ∉ l₂.map DirectoryEntry.id →
        ∃ e, ddfAt cbytes d = .ok e ∧ hmGet c6Map tagAAAA = some e)
    ∧ (tagAAAA ∉ (cdirs.drop 1).map DirectoryEntry.id → hmGet c6Map tagAAAA = none)) :=
  ⟨by decide, c6_schema_keys cbytes cdirs c6Map tagAAAA (by decide)⟩

/-- C10: when a record's directory lists one tag more than once, the later
occurrence overwrites the earlier in the resulting map, both for the Record
built by the parse_dr loop and for the DDR schema built by parse_ddfs, and
the duplicate itself raises no error: a run over a directory whose last
occurrence of the tag is the entry `d` succeeds or fails exactly through its
entries' decoding, and on success the map holds the value decoded at `d`. -/
theorem c10_duplicate_tags (schema : List (List Char × DDFEntry))
    (l₁ : List DirectoryEntry) (d : DirectoryEntry) (l₂ : List DirectoryEntry)
    (cur : Cursor) (rec0 : Record) (m : Record) (c : Cursor)
    (bytes : List Nat) (dirs : List DirectoryEntry) (m2 : List (List Char × DDFEntry))
    (hnot : d.id ∉ l₂.map DirectoryEntry.id) :
    (drGo schema (l₁ ++ d :: l₂) cur rec0 = .ok (m, c) →
      ∃ m₁ c₁ f c₂, drGo schema l₁ cur rec0 = .ok (m₁, c₁)
        ∧ fieldOfDir schema d c₁ = .ok (f, c₂)
        ∧ hmGet m d.id = some f)
    ∧ (dirs.drop 1 = l₁ ++ d :: l₂ → parse_ddfs bytes dirs = .ok m2 →
        ∃ e, ddfAt bytes d = .ok e ∧ hmGet m2 d.id = some e) := by
  constructor
  · intro hok
    rw [drGo_append] at hok
    cases h1 : drGo schema l₁ cur rec0 with
    | ok rc =>
      obtain ⟨r₁, c₁⟩ := rc
      rw [h1] at hok
      simp only [drGo] at hok
      cases hd : fieldOfDir schema d c₁ with
      | ok fc =>
        obtain ⟨f, c₂⟩ := fc
        rw [hd] at hok
        refine ⟨r₁, c₁, f, c₂, rfl, hd, ?_⟩
        rw [drGo_not_mem schema l₂ { data := c₂.data, pos := c₂.pos + 1 }
          (hmInsert r₁ d.id f) m c d.id hok hnot, hmGet_insert_self]
      | err e => rw [hd] at hok; cases hok
      | crash => rw [hd] at hok; cases hok
    | err e => rw [h1] at hok; cases hok
    | crash => rw [h1] at hok; cases hok
  · intro hdec hok2
    unfold parse_ddfs at hok2
    rw [hdec, parse_ddfs_go_append] at hok2
    cases h1 : parse_ddfs_go bytes l₁ [] with
    | ok m₁ =>
      rw [h1] at hok2
      simp only [parse_ddfs_go] at hok2
      cases hd : ddfAt bytes d with
      | ok e =>
        rw [hd] at hok2
        refine ⟨e, rfl, ?_⟩
        rw [parse_ddfs_go_not_mem bytes l₂ (hmInsert m₁ d.id e) m2 d.id hok2 hnot,
          hmGet_insert_self]
      | err e => rw [hd] at hok2; cases hok2
      | crash => rw [hd] at hok2; cases hok2
    | err e => rw [h1] at hok2; cases hok2
    | crash => rw [h1] at hok2; cases hok2

/-- C10 witness: the duplicate-tag statement applied to a concrete record
stream and a concrete DDR, both listing the tag AAAA twice. -/
theorem c10_duplicate_tags_witness :
    cdir2.id ∉ (([] : List DirectoryEntry).map DirectoryEntry.id) ∧
    drGo tSchema ([cdir1] ++ cdir2 :: []) { data := tFdata, pos := 0 } [] = .ok (c10Rec, c10Cur) ∧
    parse_ddfs cbytes cdirs = .ok c6Map ∧
    ((drGo tSchema ([cdir1] ++ cdir2 :: []) { data := tFdata, pos := 0 } [] = .ok (c10Rec, c10Cur) →
        ∃ m₁ c₁ f c₂, drGo tSchema [cdir1] { data := tFdata, pos := 0 } [] = .ok (m₁, c₁)
          ∧ fieldOfDir tSchema cdir2 c₁ = .ok (f, c₂)
          ∧ hmGet c10Rec cdir2.id = some f)
      ∧ (cdirs.drop 1 = [cdir1] ++ cdir2 :: [] → parse_ddfs cbytes cdirs = .ok c6Map →
          ∃ e, ddfAt cbytes cdir2 = .ok e ∧ hmGet c6Map cdir2.id = some e)) :=
  ⟨by decide, by decide, by decide,
    c10_duplicate_tags tSchema [cdir1] cdir2 [] { data := tFdata, pos := 0 } [] c10Rec c10Cur
      cbytes cdirs c6Map (by decide)⟩

/-- C1: the three decoding paths named by the claim do not return error
values on the cited inputs: parse_leader on an 18-byte input, parse_ddf on a
first unit-separator segment shorter than 9 bytes, and record framing on a
5-byte length prefix parsing below 5 all abort (crash) instead. -/
theorem c1_decoders_crash :
    parse_leader leaderBytes18 241 = .crash
    ∧ parse_ddf [] = .crash
    ∧ parse_dir_and_field_area [[48, 48, 48, 48, 51]] = .crash := by
  decide

/-- C2: reading 0 bytes for the 5-byte length prefix ends the iteration
cleanly (next yields no item), while reading a nonzero count other than 5
surfaces an unexpected-end I/O error as that step's error item. -/
theorem c2_framing (schema : List (List Char × DDFEntry)) (chunks : List (List Nat)) :
    ((readOnce chunks 5).1.length = 0 →
      catalogNext { schema := schema, chunks := chunks } = .ok none)
    ∧ ((readOnce chunks 5).1.length ≠ 0 → (readOnce chunks 5).1.length ≠ 5 →
      catalogNext { schema := schema, chunks := chunks } =
        .ok (some (Except.error (ErrKind.IOError IOEKind.UnexpectedEof)))) := by
  constructor
  · intro h
    simp [catalogNext, parse_dr, parse_dir_and_field_area, h]
  · intro h1 h5
    simp [catalogNext, parse_dr, parse_dir_and_field_area, h1, h5]

/-- C2 witness: an exhausted source ends the iteration; a source yielding
only 3 bytes for the length prefix yields an unexpected-end error item. -/
theorem c2_framing_witness :
    catalogNext { schema := [], chunks := [] } = .ok none ∧
    catalogNext { schema := [], chunks := [[49, 50, 51]] } =
      .ok (some (Except.error (ErrKind.IOError IOEKind.UnexpectedEof))) :=
  ⟨(c2_framing [] []).1 (by decide), (c2_framing [] [[49, 50, 51]]).2 (by decide) (by decide)⟩

/-- C4: with the field's segments decoded, a tag count differing from the
repeat-expanded format count makes parse_ddf fail with InvalidDDF carrying
the field's name; equal counts succeed with the positional zip of the
descriptor tags and the expanded specs, in descriptor order. -/
theorem c4_ddf_pairing (byte p0 p1 p2 : List Nat) (rest : List (List Nat))
    (name : List Char) (fic : FieldControls) (tags : List (List Char)) (specs : List ParseData)
    (hsplit : splitSep UNIT_SEPARATOR byte = p0 :: p1 :: p2 :: rest)
    (hp0 : 9 ≤ p0.length)
    (hname : parse_to_string (p0.drop 9) = .ok name)
    (hfic : parse_field_controls (p0.take 9) = .ok fic)
    (htags : parse_array_descriptors p1 = .ok tags)
    (hspecs : parse_format_controls p2 = .ok specs) :
    (tags.length ≠ specs.length → parse_ddf byte = .err (.InvalidDDF name))
    ∧ (tags.length = specs.length →
        parse_ddf byte = .ok { fic := fic, name := name, foc := tags.zip specs }) := by
  have hlt : ¬(p0.length < 9) := by omega
  constructor
  · intro hne
    simp [parse_ddf, hsplit, hlt, hname, hfic, htags, hspecs, PResult.ctx, hne]
  · intro heq
    simp [parse_ddf, hsplit, hlt, hname, hfic, htags, hspecs, PResult.ctx, heq]

/-- C4 witness: the pairing statement applied to a concrete DDF whose one
descriptor tag matches its one expanded format spec. -/
theorem c4_ddf_pairing_witness :
    (splitSep UNIT_SEPARATOR ddfPayload =
        ("1600;&-A NAME".toList.map Char.toNat) :: ("RCNM".toList.map Char.toNat)
          :: ("(I(10))".toList.map Char.toNat) :: []
      ∧ parse_ddf ddfPayload = .ok
          { fic := { dsc := .LS, dtc := .MDT, aux := ['0', '0'], prt := [';', '&'], tes := .LE1 }
            name := ['N', 'A', 'M', 'E']
            foc := [(['R', 'C', 'N', 'M'], ParseData.Fixed ParseType.Integer 10)] })
    ∧ (([['R', 'C', 'N', 'M']] : List (List Char)).length ≠
          ([ParseData.Fixed ParseType.Integer 10] : List ParseData).length →
        parse_ddf ddfPayload = .err (.InvalidDDF ['N', 'A', 'M', 'E']))
    ∧ (([['R', 'C', 'N', 'M']] : List (List Char)).length =
          ([ParseData.Fixed ParseType.Integer 10] : List ParseData).length →
        parse_ddf ddfPayload = .ok
          { fic := { dsc := .LS, dtc := .MDT, aux := ['0', '0'], prt := [';', '&'], tes := .LE1 }
            name := ['N', 'A', 'M', 'E']
            foc := [['R', 'C', 'N', 'M']].zip [ParseData.Fixed ParseType.Integer 10] }) :=
  ⟨⟨by decide, by decide⟩,
    c4_ddf_pairing ddfPayload ("1600;&-A NAME".toList.map Char.toNat)
      ("RCNM".toList.map Char.toNat) ("(I(10))".toList.map Char.toNat) []
      ['N', 'A', 'M', 'E']
      { dsc := .LS, dtc := .MDT, aux := ['0', '0'], prt := [';', '&'], tes := .LE1 }
      [['R', 'C', 'N', 'M']] [ParseData.Fixed ParseType.Integer 10]
      (by decide) (by decide) (by decide) (by decide) (by decide) (by decide)⟩

/-- C5: the empty array-descriptor segment yields exactly the one reserved
DRID tag and never an empty-string key; a non-empty valid-UTF-8 segment
yields its bang-separated tags in input order. -/
theorem c5_array_descriptors :
    (parse_array_descriptors [] = .ok [DRID] ∧ [DRID].length = 1 ∧ DRID ≠ [])
    ∧ ∀ (bytes : List Nat) (s : List Char), bytes ≠ [] → utf8Decode bytes = some s →
        parse_array_descriptors bytes = .ok (splitSep '!' s) := by
  refine ⟨by decide, ?_⟩
  intro bytes s hne hdec
  simp [parse_array_descriptors, hne, parse_to_string, hdec]

/-- C5 witness: the split statement applied to the repository's own
12-tag array descriptor input. -/
theorem c5_array_descriptors_witness :
    (arrDescBytes ≠ []
      ∧ utf8Decode arrDescBytes =
          some ("RCNM!RCID!FILE!LFIL!VOLM!IMPL!SLAT!WLON!NLAT!ELON!CRCS!COMT".toList))
    ∧ parse_array_descriptors arrDescBytes =
        .ok (splitSep '!' ("RCNM!RCID!FILE!LFIL!VOLM!IMPL!SLAT!WLON!NLAT!ELON!CRCS!COMT".toList)) :=
  ⟨⟨by decide, by decide⟩,
    c5_array_descriptors.2 arrDescBytes
      ("RCNM!RCID!FILE!LFIL!VOLM!IMPL!SLAT!WLON!NLAT!ELON!CRCS!COMT".toList)
      (by decide) (by decide)⟩

/-- C7: a format-control segment of 0 or 1 bytes always fails with
EmptyFormatControls; otherwise each comma-separated element's decoded spec
is expanded into its repeat count of consecutive copies, in element order. -/
theorem c7_format_controls :
    (∀ b : List Nat, b.length < 2 → parse_format_controls b = .err .EmptyFormatControls)
    ∧ ∀ (b : List Nat) (s : List Char) (pds : List (Nat × ParseData)),
        2 ≤ b.length →
        parse_to_string ((b.drop 1).take (b.length - 2)) = .ok s →
        mapPR pdFromStr (splitSep ',' s) = .ok pds →
        parse_format_controls b =
          .ok ((pds.map (fun pd => List.replicate pd.1 pd.2)).flatten) := by
  constructor
  · intro b hb
    simp [parse_format_controls, hb]
  · intro b s pds hb hs hpds
    have hlt : ¬(b.length < 2) := by omega
    rw [List.drop_one] at hs
    simp [parse_format_controls, hlt, hs, hpds]

/-- C7 witness: the expansion statement applied to the repository's own
format controls input, expanding to the 5-spec sequence of scenario E. -/
theorem c7_format_controls_witness :
    (2 ≤ fmtBytes.length
      ∧ parse_to_string ((fmtBytes.drop 1).take (fmtBytes.length - 2)) =
          .ok ("A(2),2I(10),2R".toList)
      ∧ mapPR pdFromStr (splitSep ',' ("A(2),2I(10),2R".toList)) =
          .ok [(1, ParseData.Fixed ParseType.String 2), (2, ParseData.Fixed ParseType.Integer 10),
            (2, ParseData.Variable ParseType.Float)])
    ∧ parse_format_controls fmtBytes =
        .ok (([(1, ParseData.Fixed ParseType.String 2), (2, ParseData.Fixed ParseType.Integer 10),
            (2, ParseData.Variable ParseType.Float)].map
              (fun pd => List.replicate pd.1 pd.2)).flatten) :=
  ⟨⟨by decide, by decide, by decide⟩,
    c7_format_controls.2 fmtBytes ("A(2),2I(10),2R".toList)
      [(1, ParseData.Fixed ParseType.String 2), (2, ParseData.Fixed ParseType.Integer 10),
        (2, ParseData.Variable ParseType.Float)]
      (by decide) (by decide) (by decide)⟩

/-- C8: the 19-byte leader input of the repository's leader test, with total
record length 241, decodes to the expected Leader value: interchange level
3, leader identifier L, base address 58, length width 3, position width 4,
reserved character 0, tag width 4. -/
theorem c8_leader_scenario : parse_leader leaderBytes 241 = .ok testLeader := by
  decide

/-- C9: Record::id returns some n exactly when the record holds the reserved
top-level field tag, that field holds the synthesized DRID subfield, and the
subfield's value is the integer n; in every other case it returns none. -/
theorem c9_record_id (r : Record) (n : Int) :
    recordId r = some n ↔
      ∃ f, hmGet r TOPLVL = some f ∧ hmGet f DRID = some (Data.Integer (some n)) := by
  unfold recordId
  cases h1 : hmGet r TOPLVL with
  | none => simp
  | some f =>
    cases h2 : hmGet f DRID with
    | none => simp [h2]
    | some v =>
      cases v with
      | String s => simp [h2]
      | Integer i => simp [h2]
      | Real s => simp [h2]

theorem parse_to_string_ne_crash (b : List Nat) : parse_to_string b ≠ .crash := by
  unfold parse_to_string
  cases utf8Decode b <;> simp

theorem parse_to_usize_ne_crash (b : List Nat) : parse_to_usize b ≠ .crash := by
  unfold parse_to_usize
  cases utf8Decode b with
  | none => simp
  | some s => cases hp : parseUsize s <;> simp [hp]

theorem dirEntryOfChunk_ne_crash (leader : Leader) (d : List Nat)
    (h : leader.ftf + leader.flf + leader.fpf ≤ d.length) :
    dirEntryOfChunk leader d ≠ .crash := by
  have hb1 : bslice d 0 leader.ftf = .ok (d.take leader.ftf) := by
    unfold bslice
    rw [if_pos ⟨by omega, by omega⟩]
    simp
  have hb2 : bslice d leader.ftf (leader.ftf + leader.flf) =
      .ok ((d.drop leader.ftf).take leader.flf) := by
    unfold bslice
    rw [if_pos ⟨by omega, by omega⟩]
    simp
  have hb3 : bsliceFrom d (leader.ftf + leader.flf) =
      .ok (d.drop (leader.ftf + leader.flf)) := by
    unfold bsliceFrom
    rw [if_pos (by omega)]
  unfold dirEntryOfChunk
  rw [hb1]
  cases h1 : parse_to_string (d.take leader.ftf) with
  | crash => exact absurd h1 (parse_to_string_ne_crash _)
  | err e => simp [h1]
  | ok id =>
    simp only [h1, hb2]
    cases h2 : parse_to_usize ((d.drop leader.ftf).take leader.flf) with
    | crash => exact absurd h2 (parse_to_usize_ne_crash _)
    | err e => simp [h2]
    | ok length =>
      simp only [h2, hb3]
      cases h3 : parse_to_usize (d.drop (leader.ftf + leader.flf)) with
      | crash => exact absurd h3 (parse_to_usize_ne_crash _)
      | err e => simp [h3]
      | ok offset => simp [h3]

theorem chunksOfAux_congr (w : Nat) (hw : 0 < w) :
    ∀ n fuel₁ fuel₂ (l : List Nat), l.length = n → n ≤ fuel₁ → n ≤ fuel₂ →
      chunksOfAux w fuel₁ l = chunksOfAux w fuel₂ l := by
  intro n
  induction n using Nat.strong_induction_on with
  | _ n ih =>
    intro fuel₁ fuel₂ l hlen h1 h2
    cases l with
    | nil => cases fuel₁ <;> cases fuel₂ <;> rfl
    | cons a l' =>
      simp only [List.length_cons] at hlen
      cases fuel₁ with
      | zero => omega
      | succ f₁ =>
        cases fuel₂ with
        | zero => omega
        | succ f₂ =>
          simp only [chunksOfAux]
          congr 1
          have hdl : ((a :: l').drop w).length = (l'.length + 1) - w := by
            simp [List.length_drop]
          exact ih ((a :: l').drop w).length (by omega) f₁ f₂ ((a :: l').drop w) rfl
            (by omega) (by omega)

theorem chunksOf_cons (w : Nat) (hw : 0 < w) (l : List Nat) (hl : l ≠ []) :
    chunksOf w l = l.take w :: chunksOf w (l.drop w) := by
  cases l with
  | nil => exact absurd rfl hl
  | cons a l' =>
    show chunksOfAux w ((a :: l').length) (a :: l') = _
    simp only [List.length_cons, chunksOfAux]
    congr 1
    have hdl : ((a :: l').drop w).length = (l'.length + 1) - w := by
      simp [List.length_drop]
    exact chunksOfAux_congr w hw ((a :: l').drop w).length l'.length ((a :: l').drop w).length
      ((a :: l').drop w) rfl (by omega) (by omega)

theorem chunksOf_mul (w : Nat) (hw : 0 < w) :
    ∀ k (l : List Nat), l.length = k * w →
      (chunksOf w l).length = k ∧ ∀ c ∈ chunksOf w l, c.length = w := by
  intro k
  induction k with
  | zero =>
    intro l hl
    have : l = [] := List.eq_nil_of_length_eq_zero (by omega)
    subst this
    simp [chunksOf, chunksOfAux]
  | succ k ih =>
    intro l hl
    rw [Nat.succ_mul] at hl
    have hlne : l ≠ [] := by
      intro hn
      subst hn
      simp at hl
      omega
    have hwle : w ≤ l.length := by omega
    rw [chunksOf_cons w hw l hlne]
    have htake : (l.take w).length = w := by
      simp [List.length_take]
      omega
    have hdrop : (l.drop w).length = k * w := by
      simp [List.length_drop]
      omega
    obtain ⟨h1, h2⟩ := ih (l.drop w) hdrop
    refine ⟨by simp [h1], ?_⟩
    intro c hc
    rcases List.mem_cons.mp hc with rfl | hc2
    · exact htake
    · exact h2 c hc2

theorem parse_dir_loop_fail (leader : Leader) (hw : 0 < leaderWidth leader) :
    ∀ n (l : List Nat), l.length = n → l.length % leaderWidth leader ≠ 0 →
      ∃ e, parse_dir_loop leader (leaderWidth leader) (chunksOf (leaderWidth leader) l)
        = .err e := by
  intro n
  induction n using Nat.strong_induction_on with
  | _ n ih =>
    intro l hlen hmod
    cases l with
    | nil => simp at hmod
    | cons a l' =>
      rw [chunksOf_cons (leaderWidth leader) hw (a :: l') (by simp)]
      simp only [parse_dir_loop]
      by_cases hlw : ((a :: l').take (leaderWidth leader)).length ≠ leaderWidth leader
      · rw [if_pos hlw]
        exact ⟨.BadDirectoryData, rfl⟩
      · push_neg at hlw
        have hwle : leaderWidth leader ≤ (a :: l').length := by
          have := List.length_take (leaderWidth leader) (a :: l')
          omega
        rw [if_neg (by omega)]
        cases hd : dirEntryOfChunk leader ((a :: l').take (leaderWidth leader)) with
        | crash =>
          refine absurd hd (dirEntryOfChunk_ne_crash leader _ ?_)
          rw [hlw]
          rfl
        | err e => exact ⟨e, rfl⟩
        | ok ent =>
          have hdl : ((a :: l').drop (leaderWidth leader)).length
              = (a :: l').length - leaderWidth leader := List.length_drop _ _
          have hmod2 : ((a :: l').drop (leaderWidth leader)).length % leaderWidth leader ≠ 0 := by
            rw [hdl, ← Nat.mod_eq_sub_mod hwle]
            exact hmod
          have hpos : 0 < (a :: l').length := by simp
          obtain ⟨e, he⟩ := ih ((a :: l').drop (leaderWidth leader)).length
            (by rw [hdl]; omega)
            ((a :: l').drop (leaderWidth leader)) rfl hmod2
          exact ⟨e, by rw [he]⟩

theorem parse_dir_loop_eq_mapPR (leader : Leader) (w : Nat) (cs : List (List Nat))
    (h : ∀ c ∈ cs, c.length = w) :
    parse_dir_loop leader w cs = mapPR (dirEntryOfChunk leader) cs := by
  induction cs with
  | nil => rfl
  | cons c cs ih =>
    have hc : c.length = w := h c (List.mem_cons_self c cs)
    have hrest : ∀ c2 ∈ cs, c2.length = w := fun c2 hm => h c2 (List.mem_cons_of_mem c hm)
    simp only [parse_dir_loop, mapPR, if_neg (by omega : ¬(c.length ≠ w))]
    rw [ih hrest]
    cases dirEntryOfChunk leader c <;> try rfl
    cases mapPR (dirEntryOfChunk leader) cs <;> rfl

theorem mapPR_length {α β : Type} (f : α → PResult β) :
    ∀ (l : List α) (bs : List β), mapPR f l = .ok bs → bs.length = l.length := by
  intro l
  induction l with
  | nil => intro bs h; simp only [mapPR] at h; cases h; rfl
  | cons a l ih =>
    intro bs h
    simp only [mapPR] at h
    cases hf : f a with
    | ok b =>
      rw [hf] at h
      cases hr : mapPR f l with
      | ok bs2 =>
        rw [hr] at h
        cases h
        simp [ih bs2 hr]
      | err e => rw [hr] at h; cases h
      | crash => rw [hr] at h; cases h
    | err e => rw [hf] at h; cases h
    | crash => rw [hf] at h; cases h

theorem bslice_ne_err (l : List Nat) (s e0 : Nat) (k : ErrKind) : bslice l s e0 ≠ .err k := by
  unfold bslice
  by_cases h : s ≤ e0 ∧ e0 ≤ l.length
  · simp [h]
  · simp [h]

theorem bsliceFrom_ne_err (l : List Nat) (s : Nat) (k : ErrKind) : bsliceFrom l s ≠ .err k := by
  unfold bsliceFrom
  by_cases h : s ≤ l.length
  · simp [h]
  · simp [h]

theorem parse_to_string_err_shape (b : List Nat) (e : ErrKind)
    (h : parse_to_string b = .err e) : e = .UtfError := by
  unfold parse_to_string at h
  cases hd : utf8Decode b with
  | none =>
    rw [hd] at h
    have h2 : PResult.err ErrKind.UtfError = PResult.err e := h
    injection h2 with h3
    exact h3.symm
  | some s => rw [hd] at h; cases h

theorem parse_to_usize_err_shape (b : List Nat) (e : ErrKind)
    (h : parse_to_usize b = .err e) : e = .UtfError ∨ ∃ s, e = .ParseIntError s := by
  unfold parse_to_usize at h
  cases hd : utf8Decode b with
  | none =>
    rw [hd] at h
    have h2 : PResult.err ErrKind.UtfError = PResult.err e := h
    injection h2 with h3
    exact Or.inl h3.symm
  | some s =>
    simp only [hd] at h
    cases hp : parseUsize s with
    | none =>
      rw [hp] at h
      have h2 : PResult.err (ErrKind.ParseIntError s) = PResult.err e := h
      injection h2 with h3
      exact Or.inr ⟨s, h3.symm⟩
    | some v => rw [hp] at h; cases h

theorem dirEntryOfChunk_shape (leader : Leader) (d : List Nat) :
    (∃ en, dirEntryOfChunk leader d = .ok en)
    ∨ dirEntryOfChunk leader d = .crash
    ∨ (∃ e, dirEntryOfChunk leader d = .err e
        ∧ (e = .UtfError ∨ ∃ s, e = .ParseIntError s)) := by
  unfold dirEntryOfChunk
  cases hb1 : bslice d 0 leader.ftf with
  | err k => exact absurd hb1 (bslice_ne_err d 0 leader.ftf k)
  | crash => simp [hb1]
  | ok idB =>
    simp only [hb1]
    cases h1 : parse_to_string idB with
    | crash => simp [h1]
    | err e1 =>
      simp only [h1]
      exact Or.inr (Or.inr ⟨e1, rfl, Or.inl (parse_to_string_err_shape idB e1 h1)⟩)
    | ok id =>
      simp only [h1]
      cases hb2 : bslice d leader.ftf (leader.ftf + leader.flf) with
      | err k => exact absurd hb2 (bslice_ne_err d leader.ftf (leader.ftf + leader.flf) k)
      | crash => simp [hb2]
      | ok lenB =>
        simp only [hb2]
        cases h2 : parse_to_usize lenB with
        | crash => simp [h2]
        | err e2 =>
          simp only [h2]
          exact Or.inr (Or.inr ⟨e2, rfl, parse_to_usize_err_shape lenB e2 h2⟩)
        | ok length =>
          simp only [h2]
          cases hb3 : bsliceFrom d (leader.ftf + leader.flf) with
          | err k => exact absurd hb3 (bsliceFrom_ne_err d (leader.ftf + leader.flf) k)
          | crash => simp [hb3]
          | ok offB =>
            simp only [hb3]
            cases h3 : parse_to_usize offB with
            | crash => simp [h3]
            | err e3 =>
              simp only [h3]
              exact Or.inr (Or.inr ⟨e3, rfl, parse_to_usize_err_shape offB e3 h3⟩)
            | ok offset =>
              simp only [h3]
              exact Or.inl ⟨_, rfl⟩

theorem dirEntryOfChunk_err_shape (leader : Leader) (d : List Nat) (e : ErrKind)
    (h : dirEntryOfChunk leader d = .err e) :
    e = .UtfError ∨ ∃ s, e = .ParseIntError s := by
  rcases dirEntryOfChunk_shape leader d with ⟨en, hok⟩ | hcr | ⟨e2, herr, hsh⟩
  · rw [h] at hok; cases hok
  · rw [h] at hcr; cases hcr
  · rw [h] at herr
    injection herr with h2
    subst h2
    exact hsh

theorem parse_dir_loop_fail_bdd (leader : Leader) (hw : 0 < leaderWidth leader) :
    ∀ n (l : List Nat), l.length = n → l.length % leaderWidth leader ≠ 0 →
      (∀ c ∈ chunksOf (leaderWidth leader) l, c.length = leaderWidth leader →
        ∃ en, dirEntryOfChunk leader c = .ok en) →
      parse_dir_loop leader (leaderWidth leader) (chunksOf (leaderWidth leader) l)
        = .err .BadDirectoryData := by
  intro n
  induction n using Nat.strong_induction_on with
  | _ n ih =>
    intro l hlen hmod hall
    cases l with
    | nil => simp at hmod
    | cons a l' =>
      rw [chunksOf_cons (leaderWidth leader) hw (a :: l') (by simp)] at hall ⊢
      simp only [parse_dir_loop]
      by_cases hlw : ((a :: l').take (leaderWidth leader)).length ≠ leaderWidth leader
      · rw [if_pos hlw]
      · push_neg at hlw
        have hwle : leaderWidth leader ≤ (a :: l').length := by
          have := List.length_take (leaderWidth leader) (a :: l')
          omega
        rw [if_neg (by omega)]
        obtain ⟨en, hen⟩ := hall ((a :: l').take (leaderWidth leader))
          (List.mem_cons_self _ _) hlw
        simp only [hen]
        have hdl : ((a :: l').drop (leaderWidth leader)).length
            = (a :: l').length - leaderWidth leader := List.length_drop _ _
        have hmod2 : ((a :: l').drop (leaderWidth leader)).length % leaderWidth leader ≠ 0 := by
          rw [hdl, ← Nat.mod_eq_sub_mod hwle]
          exact hmod
        have hpos : 0 < (a :: l').length := by simp
        have hrec := ih ((a :: l').drop (leaderWidth leader)).length
          (by rw [hdl]; omega)
          ((a :: l').drop (leaderWidth leader)) rfl hmod2
          (fun c hc hcl => hall c (List.mem_cons_of_mem _ hc) hcl)
        simp only [hrec]

theorem parse_dir_loop_skip_ok (leader : Leader) (w : Nat) :
    ∀ (cs₁ : List (List Nat)),
      (∀ c2 ∈ cs₁, c2.length = w ∧ ∃ en, dirEntryOfChunk leader c2 = .ok en) →
      ∀ (cs₂ : List (List Nat)) (e : ErrKind), parse_dir_loop leader w cs₂ = .err e →
        parse_dir_loop leader w (cs₁ ++ cs₂) = .err e := by
  intro cs₁
  induction cs₁ with
  | nil => intro h cs₂ e h2; exact h2
  | cons c cs₁ ih =>
    intro h cs₂ e h2
    obtain ⟨hcl, en, hen⟩ := h c (List.mem_cons_self c cs₁)
    have hrec := ih (fun c2 hm => h c2 (List.mem_cons_of_mem c hm)) cs₂ e h2
    simp only [List.cons_append, parse_dir_loop, if_neg (show ¬(c.length ≠ w) by omega), hen]
    simp only [List.append_eq, hrec]

/-- C3 counterexample: on a 4-byte region with chunk width 3 (not a
multiple), the first full chunk's unparseable length subfield makes
parse_directory fail with ParseIntError, not with BadDirectoryData as the
claim states. -/
theorem c3_directory_counterexample :
    parse_directory cxDirBytes cxDirLeader = .err (.ParseIntError ['x'])
    ∧ ErrKind.ParseIntError ['x'] ≠ ErrKind.BadDirectoryData
    ∧ cxDirBytes.length % leaderWidth cxDirLeader = 1 := by
  decide

/-- C3 (amended): for a positive chunk width w, a directory region whose
length is not a multiple of w always fails with an error, and the error kind
is characterized: when every full-width chunk decodes, the failure is
BadDirectoryData (from the short final chunk); when instead some full-width
chunk fails to decode, the result is that first failing chunk's own error,
which is always a UTF-8 or integer-parse error.  A region of length exactly
k·w decodes chunkwise in input order — the result is the effectful map of
the chunk decoder over the k chunks, each chunk of width w splitting into
tag, length and position bytes — and a successful result holds exactly k
entries. -/
theorem c3_directory_chunks (byte : List Nat) (leader : Leader)
    (hw : 0 < leaderWidth leader) :
    (byte.length % leaderWidth leader ≠ 0 →
      (∃ e, parse_directory byte leader = .err e)
      ∧ ((∀ c ∈ chunksOf (leaderWidth leader) byte, c.length = leaderWidth leader →
            ∃ en, dirEntryOfChunk leader c = .ok en) →
          parse_directory byte leader = .err .BadDirectoryData)
      ∧ (∀ cs₁ c cs₂ e, chunksOf (leaderWidth leader) byte = cs₁ ++ c :: cs₂ →
          (∀ c2 ∈ cs₁, c2.length = leaderWidth leader
            ∧ ∃ en, dirEntryOfChunk leader c2 = .ok en) →
          c.length = leaderWidth leader →
          dirEntryOfChunk leader c = .err e →
          parse_directory byte leader = .err e
            ∧ (e = .UtfError ∨ ∃ s, e = .ParseIntError s)))
    ∧ (∀ k, byte.length = k * leaderWidth leader →
        parse_directory byte leader =
          mapPR (dirEntryOfChunk leader) (chunksOf (leaderWidth leader) byte)
        ∧ (chunksOf (leaderWidth leader) byte).length = k
        ∧ (∀ c ∈ chunksOf (leaderWidth leader) byte, c.length = leaderWidth leader)
        ∧ (∀ es, parse_directory byte leader = .ok es → es.length = k)) := by
  have hne : ¬(leaderWidth leader = 0) := by omega
  constructor
  · intro hmod
    refine ⟨?_, ?_, ?_⟩
    · obtain ⟨e, he⟩ := parse_dir_loop_fail leader hw byte.length byte rfl hmod
      refine ⟨e, ?_⟩
      unfold parse_directory
      rw [if_neg hne]
      exact he
    · intro hall
      unfold parse_directory
      rw [if_neg hne]
      exact parse_dir_loop_fail_bdd leader hw byte.length byte rfl hmod hall
    · intro cs₁ c cs₂ e hdec hpre hclen herr
      have h2 : parse_dir_loop leader (leaderWidth leader) (c :: cs₂) = .err e := by
        simp only [parse_dir_loop,
          if_neg (show ¬(c.length ≠ leaderWidth leader) by omega), herr]
      refine ⟨?_, dirEntryOfChunk_err_shape leader c e herr⟩
      unfold parse_directory
      rw [if_neg hne, hdec]
      exact parse_dir_loop_skip_ok leader (leaderWidth leader) cs₁ hpre (c :: cs₂) e h2
  · intro k hk
    obtain ⟨hlen, hall⟩ := chunksOf_mul (leaderWidth leader) hw k byte hk
    have heq : parse_directory byte leader =
        mapPR (dirEntryOfChunk leader) (chunksOf (leaderWidth leader) byte) := by
      unfold parse_directory
      rw [if_neg hne]
      exact parse_dir_loop_eq_mapPR leader (leaderWidth leader)
        (chunksOf (leaderWidth leader) byte) hall
    refine ⟨heq, hlen, hall, ?_⟩
    intro es hes
    rw [heq] at hes
    rw [← hlen]
    exact mapPR_length (dirEntryOfChunk leader) (chunksOf (leaderWidth leader) byte) es hes

/-- C3 witness: the chunkwise statement applied to the repository's own
33-byte directory input at chunk width 11 (which splits into the 3 expected
entries), together with concrete evaluations of both failure kinds: the
34-byte region whose full chunks all decode fails with BadDirectoryData,
and the width-3 region whose first full chunk has an unparseable length
subfield fails with that chunk's ParseIntError. -/
theorem c3_directory_chunks_witness :
    0 < leaderWidth testLeader ∧
    ((dirBytes.length % leaderWidth testLeader ≠ 0 →
        (∃ e, parse_directory dirBytes testLeader = .err e)
        ∧ ((∀ c ∈ chunksOf (leaderWidth testLeader) dirBytes,
              c.length = leaderWidth testLeader →
              ∃ en, dirEntryOfChunk testLeader c = .ok en) →
            parse_directory dirBytes testLeader = .err .BadDirectoryData)
        ∧ (∀ cs₁ c cs₂ e, chunksOf (leaderWidth testLeader) dirBytes = cs₁ ++ c :: cs₂ →
            (∀ c2 ∈ cs₁, c2.length = leaderWidth testLeader
              ∧ ∃ en, dirEntryOfChunk testLeader c2 = .ok en) →
            c.length = leaderWidth testLeader →
            dirEntryOfChunk testLeader c = .err e →
            parse_directory dirBytes testLeader = .err e
              ∧ (e = .UtfError ∨ ∃ s, e = .ParseIntError s)))
      ∧ (∀ k, dirBytes.length = k * leaderWidth testLeader →
          parse_directory dirBytes testLeader =
            mapPR (dirEntryOfChunk testLeader) (chunksOf (leaderWidth testLeader) dirBytes)
          ∧ (chunksOf (leaderWidth testLeader) dirBytes).length = k
          ∧ (∀ c ∈ chunksOf (leaderWidth testLeader) dirBytes,
              c.length = leaderWidth testLeader)
          ∧ (∀ es, parse_directory dirBytes testLeader = .ok es → es.length = k))) ∧
    parse_directory dirBytes testLeader = .ok testDirectory ∧
    parse_directory (dirBytes ++ [63]) testLeader = .err .BadDirectoryData ∧
    parse_directory cxDirBytes cxDirLeader = .err (.ParseIntError ['x']) :=
  ⟨by decide, c3_directory_chunks dirBytes testLeader (by decide), by decide, by decide,
    by decide⟩
